import Mathlib

/-!
Shallow embedding of `rrt_algorithms/search_space/search_space.py`.

Points are tuples of coordinates, modelled as lists of rationals.
`SearchSpace` holds the per-dimension bounds and the two injected
predicates; `ObstacleRtree` holds the spatial index, modelled as the
list of axis-aligned rectangles loaded into it.  The rtree point query
`count` counts the indexed rectangles whose (closed) bounding box
contains the query point, which is the documented behaviour of the
external spatial index.  Python exceptions become an `Except` value;
the distinct raise sites of the source become distinct error
constructors.  Randomness is modelled as oracle input: `sample` takes
one unit-interval draw per axis and applies the inverse-CDF transform
`low + u * (high - low)`, which is how a uniform draw over
`[low, high)` is produced from a uniform draw over `[0, 1)`;
`sample_free` takes the stream of successive `sample()` results.
-/

namespace RRT

/-- A point of the configuration space: an ordered tuple of coordinates. -/
abbrev Point := List ℚ

/-- The three distinct construction failures of `SearchSpace.__init__`,
one per raise site: fewer than 2 dimensions, a bound pair that is not
exactly a (start, end) pair, and a pair with start ≥ end. -/
inductive SpaceError where
  | invalidDimension
  | malformedBound
  | degenerateBound
deriving DecidableEq, Repr

/-- The validated search space: dimension count, the bounds stored
verbatim, and the two externally supplied predicates. -/
structure SearchSpace where
  dimensions : ℕ
  dimension_lengths : List (List ℚ)
  obstacle_free : Point → Bool
  collision_free : Point → Point → ℚ → Bool

/-- `SearchSpace.__init__`: the three sanity checks in source order,
then the object with the bounds stored verbatim. -/
def mkSearchSpace (dimension_lengths : List (List ℚ))
    (obstacle_free : Point → Bool)
    (collision_free : Point → Point → ℚ → Bool) :
    Except SpaceError SearchSpace :=
  if dimension_lengths.length < 2 then
    .error .invalidDimension
  else if dimension_lengths.any (fun i => i.length != 2) then
    .error .malformedBound
  else if dimension_lengths.any (fun i => decide (i.getD 0 0 ≥ i.getD 1 0)) then
    .error .degenerateBound
  else
    .ok ⟨dimension_lengths.length, dimension_lengths, obstacle_free, collision_free⟩

/-- `SearchSpace.sample`: `np.random.uniform(lows, highs)`, with the
randomness supplied as one draw `u ∈ [0, 1)` per axis and turned into a
draw over `[low, high)` by the affine transform `low + u * (high - low)`. -/
def SearchSpace.sample (S : SearchSpace) (u : List ℚ) : Point :=
  (S.dimension_lengths.zip u).map (fun p => p.1.getD 0 0 + p.2 * (p.1.getD 1 0 - p.1.getD 0 0))

/-- `SearchSpace.sample_free`: the unbounded rejection loop.  `draws n`
is the result of the n-th call to `self.sample()`; the loop terminates
exactly when some draw passes `self.obstacle_free`, so the model takes
that existence as a hypothesis and returns the draw at the least such
index, which is what the while-loop returns. -/
def SearchSpace.sample_free (S : SearchSpace) (draws : ℕ → Point)
    (h : ∃ n, S.obstacle_free (draws n) = true) : Point :=
  draws (Nat.find h)

/-- The two distinct construction failures of `ObstacleRtree.__init__`:
an obstacle whose coordinate count is not `2 * dim`, and an obstacle
with `low[i] ≥ high[i]` on some axis. -/
inductive ObstacleError where
  | obstacleDimension
  | obstacleOrdering
deriving DecidableEq, Repr

/-- The obstacle index: its dimension and the rectangles loaded into
the spatial index, each stored as `dim` low coordinates followed by
`dim` high coordinates (the interleaved rtree bounding-box format the
source uses). -/
structure ObstacleRtree where
  dim : ℕ
  obs : List (List ℚ)
deriving DecidableEq, Repr

/-- `ObstacleRtree.__init__`: with `obstacles is None` an empty index;
otherwise the two validation passes in source order (`len(o) / 2 != dim`,
then `o[i] >= o[int(i + len(o) / 2)]` for `i in range(int(len(o) / 2))`),
then every obstacle bulk-loaded via `obstacle_generator`. -/
def mkObstacleRtree (dim : ℕ) (obstacles : Option (List (List ℚ))) :
    Except ObstacleError ObstacleRtree :=
  match obstacles with
  | none => .ok ⟨dim, []⟩
  | some obstacles =>
    if obstacles.any (fun o => o.length != 2 * dim) then
      .error .obstacleDimension
    else if obstacles.any (fun o =>
        (List.range (o.length / 2)).any
          (fun i => decide (o.getD i 0 ≥ o.getD (i + o.length / 2) 0))) then
      .error .obstacleOrdering
    else
      .ok ⟨dim, obstacles⟩

/-- Closed-box containment of a point in an indexed rectangle: on every
axis `i` the coordinate lies between the rectangle's i-th low and i-th
high coordinate, boundary included (the spatial index's intersection
query is boundary-inclusive). -/
def containsPoint (dim : ℕ) (o : List ℚ) (x : Point) : Bool :=
  (List.range dim).all (fun i => decide (o.getD i 0 ≤ x.getD i 0 ∧ x.getD i 0 ≤ o.getD (i + dim) 0))

/-- The rtree point query `self.obs.count(x)`: the number of indexed
rectangles whose bounding box contains `x`. -/
def ObstacleRtree.count (R : ObstacleRtree) (x : Point) : ℕ :=
  R.obs.countP (fun o => containsPoint R.dim o x)

/-- `ObstacleRtree.obstacle_free`: `self.obs.count(x) == 0`. -/
def ObstacleRtree.obstacle_free (R : ObstacleRtree) (x : Point) : Bool :=
  R.count x == 0

/-- Chebyshev distance between two points, used as the segment length
measure of the modelled discretizer.  Any norm works for the interface
in §6 of the spec; this one stays inside ℚ. -/
def chebDist (a b : Point) : ℚ :=
  ((a.zip b).map (fun p => |p.1 - p.2|)).foldr max 0

/-- Number of equal subdivisions of the segment from `a` to `b` so that
consecutive sample points are at most `r` apart: the ceiling of
`dist / r`, and at least 1 so that both endpoints always appear. -/
def segmentSteps (a b : Point) (r : ℚ) : ℕ :=
  max 1 (⌈chebDist a b / r⌉).toNat

/-- Modelled from the spec: `es_points_along_line` (from
`rrt_algorithms.utilities.geometry`, not part of this package's core
source) is specified in §6 as `pointsAlongSegment(start, end,
resolution) → ordered finite sequence of Point`, spacing consecutive
points by at most `resolution`, first element `start`, last element
`end`, pure and finite.  The model subdivides the segment into
`segmentSteps` equal parts and returns the `segmentSteps + 1`
equally-spaced points from `a` to `b` inclusive. -/
def es_points_along_line (a b : Point) (r : ℚ) : List Point :=
  (List.range (segmentSteps a b r + 1)).map (fun (i : ℕ) =>
    (a.zip b).map (fun q => q.1 + ((i : ℚ) / (segmentSteps a b r : ℚ)) * (q.2 - q.1)))

/-- `ObstacleRtree.collision_free`: every point produced along the
segment passes `obstacle_free`. -/
def ObstacleRtree.collision_free (R : ObstacleRtree) (a b : Point) (r : ℚ) : Bool :=
  (es_points_along_line a b r).all (fun p => R.obstacle_free p)

/-- A concrete one-dimensional index with the single obstacle
`[9/20, 11/20]`, used to evaluate the queries on concrete inputs. -/
def obsDemo : ObstacleRtree := ⟨1, [[9/20, 11/20]]⟩

lemma zip_self_map_lerp (p : Point) (t : ℚ) :
    (p.zip p).map (fun q => q.1 + t * (q.2 - q.1)) = p := by
  induction p with
  | nil => rfl
  | cons a p ih => simp [List.zip_cons_cons, ih]

/-- On a degenerate segment every produced sample point is the point
itself. -/
lemma es_points_along_line_self (p : Point) (r : ℚ) :
    es_points_along_line p p r = List.replicate (segmentSteps p p r + 1) p := by
  unfold es_points_along_line
  rw [List.eq_replicate_iff]
  refine ⟨by rw [List.length_map, List.length_range], ?_⟩
  intro q hq
  simp only [List.mem_map] at hq
  obtain ⟨i, _, rfl⟩ := hq
  exact zip_self_map_lerp p _

lemma collision_free_self_aux (R : ObstacleRtree) (p : Point) (r : ℚ) :
    R.collision_free p p r = R.obstacle_free p := by
  unfold ObstacleRtree.collision_free
  rw [es_points_along_line_self]
  cases h : R.obstacle_free p with
  | true => simp [List.all_eq_true, List.mem_replicate, h]
  | false =>
    rw [List.all_eq_false]
    exact ⟨p, by simp [List.mem_replicate], by simp [h]⟩

/-- The obstacle of `obsDemo` contains the point `[1/2]`, so the point
query reports it as not obstacle-free. -/
lemma obsDemo_obstacle_free_half : obsDemo.obstacle_free [1/2] = false := by
  have hcont : containsPoint obsDemo.dim [9/20, 11/20] [1/2] = true := by
    rw [containsPoint, List.all_eq_true]
    intro i hi
    rw [List.mem_range] at hi
    have h1 : i < 1 := by simpa [obsDemo] using hi
    have h0 : i = 0 := by omega
    subst h0
    rw [decide_eq_true_eq]
    simp only [obsDemo, List.getD_cons_zero, List.getD_cons_succ, zero_add]
    norm_num
  have hpos : 0 < obsDemo.count [1/2] := by
    rw [ObstacleRtree.count, List.countP_pos_iff]
    exact ⟨[9/20, 11/20], by simp [obsDemo], hcont⟩
  simp only [ObstacleRtree.obstacle_free]
  simpa using Nat.pos_iff_ne_zero.mp hpos

/-- C1: `obstacle_free x` is true exactly when the number of indexed
obstacle rectangles whose bounding box contains `x` is zero; the query
is a pure function of the index value, so it cannot mutate the index. -/
theorem obstacle_free_iff_count_eq_zero (R : ObstacleRtree) (x : Point) :
    R.obstacle_free x = true ↔
      R.obs.countP (fun o => containsPoint R.dim o x) = 0 := by
  simp [ObstacleRtree.obstacle_free, ObstacleRtree.count]

/-- C2: for every segment and resolution r > 0, `collision_free` is true
exactly when `obstacle_free` holds at every sample point produced by the
segment-discretization helper, i.e. it is the conjunction of
`obstacle_free` over the produced points. -/
theorem collision_free_iff_all_points_obstacle_free (R : ObstacleRtree)
    (a b : Point) (r : ℚ) (_hr : 0 < r) :
    R.collision_free a b r = true ↔
      ∀ p ∈ es_points_along_line a b r, R.obstacle_free p = true := by
  rw [ObstacleRtree.collision_free, List.all_eq_true]

theorem collision_free_iff_all_points_obstacle_free_witness :
    (0:ℚ) < 1 ∧
      (obsDemo.collision_free [0] [1] 1 = true ↔
        ∀ p ∈ es_points_along_line [0] [1] 1, obsDemo.obstacle_free p = true) :=
  ⟨by norm_num,
    collision_free_iff_all_points_obstacle_free obsDemo [0] [1] 1 (by norm_num)⟩

/-- C7: for every point p and every resolution r > 0, the degenerate
segment query `collision_free p p r` returns exactly `obstacle_free p`. -/
theorem collision_free_self_eq_obstacle_free (R : ObstacleRtree) (p : Point)
    (r : ℚ) (_hr : 0 < r) : R.collision_free p p r = R.obstacle_free p :=
  collision_free_self_aux R p r

theorem collision_free_self_eq_obstacle_free_witness :
    (0:ℚ) < 1 ∧
      obsDemo.collision_free [1/2] [1/2] 1 = obsDemo.obstacle_free [1/2] :=
  ⟨by norm_num,
    collision_free_self_eq_obstacle_free obsDemo [1/2] 1 (by norm_num)⟩

/-- C9: an index built with the obstacle list absent is empty, so every
point is obstacle-free and every segment is collision-free at every
resolution r > 0. -/
theorem empty_index_all_free (dim : ℕ) (R : ObstacleRtree)
    (h : mkObstacleRtree dim none = Except.ok R) :
    R.obs = [] ∧ (∀ x : Point, R.obstacle_free x = true) ∧
      ∀ a b : Point, ∀ r : ℚ, 0 < r → R.collision_free a b r = true := by
  have hR : R = ⟨dim, []⟩ := by
    simp only [mkObstacleRtree, Except.ok.injEq] at h
    exact h.symm
  subst hR
  refine ⟨rfl, fun x => ?_, fun a b r _ => ?_⟩
  · simp [ObstacleRtree.obstacle_free, ObstacleRtree.count]
  · simp [ObstacleRtree.collision_free, List.all_eq_true,
      ObstacleRtree.obstacle_free, ObstacleRtree.count]

theorem empty_index_all_free_witness :
    ObstacleRtree.obstacle_free ⟨2, []⟩ [0, 0] = true ∧
      ObstacleRtree.collision_free ⟨2, []⟩ [0, 0] [1, 1] 1 = true := by
  have h := empty_index_all_free 2 ⟨2, []⟩ rfl
  exact ⟨h.2.1 [0, 0], h.2.2 [0, 0] [1, 1] 1 (by norm_num)⟩

/-- C10: containment is closed-box inclusive: if an indexed obstacle
satisfies `low[i] ≤ x[i] ≤ high[i]` on every axis (boundary points
included), then `obstacle_free x` is false. -/
theorem obstacle_free_false_of_mem_closed_box (R : ObstacleRtree)
    (o : List ℚ) (x : Point) (ho : o ∈ R.obs)
    (hc : ∀ i < R.dim, o.getD i 0 ≤ x.getD i 0 ∧ x.getD i 0 ≤ o.getD (i + R.dim) 0) :
    R.obstacle_free x = false := by
  have hcont : containsPoint R.dim o x = true := by
    rw [containsPoint, List.all_eq_true]
    intro i hi
    rw [List.mem_range] at hi
    exact decide_eq_true_eq.mpr (hc i hi)
  have hpos : 0 < R.count x := by
    rw [ObstacleRtree.count, List.countP_pos_iff]
    exact ⟨o, ho, hcont⟩
  simp only [ObstacleRtree.obstacle_free]
  simpa using Nat.pos_iff_ne_zero.mp hpos

theorem obstacle_free_false_of_mem_closed_box_witness :
    [(9:ℚ)/20, 11/20] ∈ obsDemo.obs ∧ obsDemo.obstacle_free [1/2] = false := by
  have ho : [(9:ℚ)/20, 11/20] ∈ obsDemo.obs := by simp [obsDemo]
  refine ⟨ho, obstacle_free_false_of_mem_closed_box obsDemo [9/20, 11/20] [1/2] ho ?_⟩
  intro i hi
  have h1 : i < 1 := by simpa [obsDemo] using hi
  have h0 : i = 0 := by omega
  subst h0
  simp only [obsDemo, List.getD]
  norm_num

/-- A concrete valid two-dimensional space over the unit square with
trivial injected predicates, used to evaluate the operations. -/
def demoSpace : SearchSpace :=
  ⟨2, [[0, 1], [0, 1]], fun _ => true, fun _ _ _ => true⟩

/-- C4: whatever the sequence of `sample()` draws, the rejection loop
returns the draw at the first index where the injected obstacle-free
predicate is true: the result satisfies the predicate, it is one of the
draws, and every earlier draw fails the predicate. -/
theorem sample_free_returns_first_free_draw (S : SearchSpace)
    (draws : ℕ → Point) (h : ∃ n, S.obstacle_free (draws n) = true) :
    S.obstacle_free (S.sample_free draws h) = true ∧
      ∃ n, S.sample_free draws h = draws n ∧
        S.obstacle_free (draws n) = true ∧
        ∀ m < n, S.obstacle_free (draws m) = false :=
  ⟨Nat.find_spec h, Nat.find h, rfl, Nat.find_spec h,
    fun m hm => by simpa using Nat.find_min h hm⟩

theorem sample_free_returns_first_free_draw_witness :
    SearchSpace.obstacle_free demoSpace
        (SearchSpace.sample_free demoSpace (fun _ => [0, 0]) ⟨0, rfl⟩) = true :=
  (sample_free_returns_first_free_draw demoSpace (fun _ => [0, 0]) ⟨0, rfl⟩).1

/-- C5: construction of the search space fails with the error naming the
violation — too few dimensions, a bound tuple that is not a pair, or a
pair with start ≥ end, in the source's check order — and on valid input
succeeds storing the bounds verbatim together with the two predicates. -/
theorem mkSearchSpace_error_spec (b : List (List ℚ)) (f : Point → Bool)
    (g : Point → Point → ℚ → Bool) :
    (b.length < 2 → mkSearchSpace b f g = .error .invalidDimension) ∧
    (2 ≤ b.length → (∃ p ∈ b, p.length ≠ 2) →
      mkSearchSpace b f g = .error .malformedBound) ∧
    (2 ≤ b.length → (∀ p ∈ b, p.length = 2) →
      (∃ p ∈ b, p.getD 1 0 ≤ p.getD 0 0) →
      mkSearchSpace b f g = .error .degenerateBound) ∧
    (2 ≤ b.length → (∀ p ∈ b, p.length = 2) →
      (∀ p ∈ b, p.getD 0 0 < p.getD 1 0) →
      mkSearchSpace b f g = .ok ⟨b.length, b, f, g⟩) := by
  have h1 : (b.any (fun i => i.length != 2) = true) ↔ ∃ p ∈ b, p.length ≠ 2 := by
    simp [List.any_eq_true]
  have h2 : (b.any (fun i => decide (i.getD 0 0 ≥ i.getD 1 0)) = true) ↔
      ∃ p ∈ b, p.getD 1 0 ≤ p.getD 0 0 := by
    simp [List.any_eq_true, ge_iff_le]
  refine ⟨fun h => ?_, fun hge hex => ?_, fun hge hall hex => ?_,
    fun hge hall hlt => ?_⟩
  · rw [mkSearchSpace, if_pos h]
  · rw [mkSearchSpace, if_neg (by omega), if_pos (h1.mpr hex)]
  · have hmal : ¬(b.any (fun i => i.length != 2) = true) := fun hc => by
      obtain ⟨p, hp, hne⟩ := h1.mp hc
      exact hne (hall p hp)
    rw [mkSearchSpace, if_neg (by omega), if_neg hmal, if_pos (h2.mpr hex)]
  · have hmal : ¬(b.any (fun i => i.length != 2) = true) := fun hc => by
      obtain ⟨p, hp, hne⟩ := h1.mp hc
      exact hne (hall p hp)
    have hdeg : ¬(b.any (fun i => decide (i.getD 0 0 ≥ i.getD 1 0)) = true) :=
      fun hc => by
        obtain ⟨p, hp, hle⟩ := h2.mp hc
        exact absurd hle (not_le.mpr (hlt p hp))
    rw [mkSearchSpace, if_neg (by omega), if_neg hmal, if_neg hdeg]

theorem mkSearchSpace_error_spec_witness :
    mkSearchSpace [[(0:ℚ), 1]] (fun _ => true) (fun _ _ _ => true)
        = .error .invalidDimension ∧
      mkSearchSpace [[(0:ℚ)], [0, 1]] (fun _ => true) (fun _ _ _ => true)
        = .error .malformedBound ∧
      mkSearchSpace [[(1:ℚ), 0], [0, 1]] (fun _ => true) (fun _ _ _ => true)
        = .error .degenerateBound ∧
      mkSearchSpace [[(0:ℚ), 1], [0, 1]] (fun _ => true) (fun _ _ _ => true)
        = .ok demoSpace := by
  refine ⟨(mkSearchSpace_error_spec _ _ _).1 (by norm_num),
    (mkSearchSpace_error_spec _ _ _).2.1 (by norm_num)
      ⟨[0], by simp, by norm_num⟩,
    (mkSearchSpace_error_spec _ _ _).2.2.1 (by norm_num) ?_
      ⟨[1, 0], by simp, by norm_num⟩,
    (mkSearchSpace_error_spec _ _ _).2.2.2 (by norm_num) ?_ ?_⟩
  · intro p hp
    rcases List.mem_cons.mp hp with rfl | hp
    · rfl
    · rcases List.mem_cons.mp hp with rfl | hp
      · rfl
      · exact absurd hp (List.not_mem_nil p)
  · intro p hp
    rcases List.mem_cons.mp hp with rfl | hp
    · rfl
    · rcases List.mem_cons.mp hp with rfl | hp
      · rfl
      · exact absurd hp (List.not_mem_nil p)
  · intro p hp
    rcases List.mem_cons.mp hp with rfl | hp
    · norm_num
    · rcases List.mem_cons.mp hp with rfl | hp
      · norm_num
      · exact absurd hp (List.not_mem_nil p)

/-- C6: construction of the obstacle index with a present obstacle list
fails with the error naming the violation — wrong coordinate count
first, then an axis with low ≥ high, in the source's check order — and
when every obstacle is valid it succeeds loading every obstacle into the
index. -/
theorem mkObstacleRtree_error_spec (dim : ℕ) (obstacles : List (List ℚ)) :
    ((∃ o ∈ obstacles, o.length ≠ 2 * dim) →
      mkObstacleRtree dim (some obstacles) = .error .obstacleDimension) ∧
    ((∀ o ∈ obstacles, o.length = 2 * dim) →
      (∃ o ∈ obstacles, ∃ i < dim, o.getD (i + dim) 0 ≤ o.getD i 0) →
      mkObstacleRtree dim (some obstacles) = .error .obstacleOrdering) ∧
    ((∀ o ∈ obstacles, o.length = 2 * dim) →
      (∀ o ∈ obstacles, ∀ i < dim, o.getD i 0 < o.getD (i + dim) 0) →
      mkObstacleRtree dim (some obstacles) = .ok ⟨dim, obstacles⟩) := by
  have h1 : (obstacles.any (fun o => o.length != 2 * dim) = true) ↔
      ∃ o ∈ obstacles, o.length ≠ 2 * dim := by
    simp [List.any_eq_true]
  refine ⟨fun hex => ?_, fun hall hex => ?_, fun hall hlt => ?_⟩
  · rw [mkObstacleRtree, if_pos (h1.mpr hex)]
  · have hdim : ¬(obstacles.any (fun o => o.length != 2 * dim) = true) :=
      fun hc => by
        obtain ⟨o, ho, hne⟩ := h1.mp hc
        exact hne (hall o ho)
    have hhalf : ∀ o ∈ obstacles, o.length / 2 = dim := fun o ho => by
      rw [hall o ho]; omega
    have hord : obstacles.any (fun o =>
        (List.range (o.length / 2)).any
          (fun i => decide (o.getD i 0 ≥ o.getD (i + o.length / 2) 0))) = true := by
      rw [List.any_eq_true]
      obtain ⟨o, ho, i, hi, hle⟩ := hex
      refine ⟨o, ho, ?_⟩
      rw [List.any_eq_true]
      refine ⟨i, ?_, ?_⟩
      · rw [List.mem_range, hhalf o ho]; exact hi
      · rw [hhalf o ho, decide_eq_true_eq]; exact hle
    rw [mkObstacleRtree, if_neg hdim, if_pos hord]
  · have hdim : ¬(obstacles.any (fun o => o.length != 2 * dim) = true) :=
      fun hc => by
        obtain ⟨o, ho, hne⟩ := h1.mp hc
        exact hne (hall o ho)
    have hhalf : ∀ o ∈ obstacles, o.length / 2 = dim := fun o ho => by
      rw [hall o ho]; omega
    have hord : ¬(obstacles.any (fun o =>
        (List.range (o.length / 2)).any
          (fun i => decide (o.getD i 0 ≥ o.getD (i + o.length / 2) 0))) = true) := by
      rw [List.any_eq_true]
      rintro ⟨o, ho, hc⟩
      rw [List.any_eq_true] at hc
      obtain ⟨i, hi, hle⟩ := hc
      rw [List.mem_range, hhalf o ho] at hi
      rw [hhalf o ho, decide_eq_true_eq] at hle
      exact absurd hle (not_le.mpr (hlt o ho i hi))
    rw [mkObstacleRtree, if_neg hdim, if_neg hord]

theorem mkObstacleRtree_error_spec_witness :
    mkObstacleRtree 1 (some [[(0:ℚ)]]) = .error .obstacleDimension ∧
      mkObstacleRtree 1 (some [[(1:ℚ), 0]]) = .error .obstacleOrdering ∧
      mkObstacleRtree 1 (some [[(0:ℚ), 1]]) = .ok ⟨1, [[(0:ℚ), 1]]⟩ := by
  refine ⟨(mkObstacleRtree_error_spec 1 _).1 ⟨[0], by simp, by norm_num⟩,
    (mkObstacleRtree_error_spec 1 _).2.1 ?_ ⟨[1, 0], by simp, 0, by norm_num, by norm_num⟩,
    (mkObstacleRtree_error_spec 1 _).2.2 ?_ ?_⟩
  · intro o ho
    rcases List.mem_cons.mp ho with rfl | ho
    · rfl
    · exact absurd ho (List.not_mem_nil o)
  · intro o ho
    rcases List.mem_cons.mp ho with rfl | ho
    · rfl
    · exact absurd ho (List.not_mem_nil o)
  · intro o ho i hi
    rcases List.mem_cons.mp ho with rfl | ho
    · have h0 : i = 0 := by omega
      subst h0
      norm_num
    · exact absurd ho (List.not_mem_nil o)

/-- C3: on a validly constructed space, every point returned by
`sample` (for unit-interval per-axis draws, which is how the uniform
draw over each axis is produced) has one coordinate per dimension and
each coordinate lies in the closed interval given by that axis's
bounds. -/
theorem sample_mem_bounds (b : List (List ℚ)) (f : Point → Bool)
    (g : Point → Point → ℚ → Bool) (S : SearchSpace) (u : List ℚ)
    (h : mkSearchSpace b f g = Except.ok S)
    (hu : u.length = b.length)
    (hunit : ∀ q ∈ u, 0 ≤ q ∧ q < 1) :
    (S.sample u).length = S.dimensions ∧
      ∀ i < S.dimensions,
        (b.getD i []).getD 0 0 ≤ (S.sample u).getD i 0 ∧
          (S.sample u).getD i 0 ≤ (b.getD i []).getD 1 0 := by
  rw [mkSearchSpace] at h
  split_ifs at h with hd hm hdeg
  rw [Except.ok.injEq] at h
  subst h
  have hlt : ∀ p ∈ b, p.getD 0 0 < p.getD 1 0 := by
    intro p hp
    by_contra hle
    exact hdeg (List.any_eq_true.mpr
      ⟨p, hp, decide_eq_true_eq.mpr (not_lt.mp hle)⟩)
  constructor
  · simp [SearchSpace.sample, List.length_zip, hu]
  · intro i hi
    have hib : i < b.length := hi
    have hiu : i < u.length := by omega
    have hzlen : i < (b.zip u).length := by
      rw [List.length_zip]
      exact lt_min hib hiu
    have hslen : i <
        ((b.zip u).map
          (fun p => p.1.getD 0 0 + p.2 * (p.1.getD 1 0 - p.1.getD 0 0))).length := by
      rw [List.length_map]
      exact hzlen
    have hx : ((⟨b.length, b, f, g⟩ : SearchSpace).sample u).getD i 0 =
        b[i].getD 0 0 + u[i] * (b[i].getD 1 0 - b[i].getD 0 0) := by
      simp only [SearchSpace.sample]
      rw [List.getD_eq_getElem _ _ hslen, List.getElem_map, List.getElem_zip]
    have hb : b.getD i [] = b[i] := List.getD_eq_getElem b [] hib
    obtain ⟨hu0, hu1⟩ := hunit u[i] (List.getElem_mem hiu)
    have hbl := hlt b[i] (List.getElem_mem hib)
    rw [hx, hb]
    constructor
    · have := mul_nonneg hu0 (sub_nonneg.mpr hbl.le)
      linarith
    · have hmul : u[i] * (b[i].getD 1 0 - b[i].getD 0 0) ≤
          1 * (b[i].getD 1 0 - b[i].getD 0 0) :=
        mul_le_mul_of_nonneg_right hu1.le (sub_nonneg.mpr hbl.le)
      linarith

theorem sample_mem_bounds_witness :
    mkSearchSpace [[(0:ℚ), 1], [0, 1]] (fun _ => true) (fun _ _ _ => true)
        = Except.ok demoSpace ∧
      (([[(0:ℚ), 1], [0, 1]].getD 0 []).getD 0 0 ≤
          (demoSpace.sample [1/2, 1/2]).getD 0 0 ∧
        (demoSpace.sample [1/2, 1/2]).getD 0 0 ≤
          ([[(0:ℚ), 1], [0, 1]].getD 0 []).getD 1 0) := by
  have hm : ¬(([[(0:ℚ), 1], [0, 1]] : List (List ℚ)).any
      (fun i => i.length != 2) = true) := by
    simp
  have hdeg : ¬(([[(0:ℚ), 1], [0, 1]] : List (List ℚ)).any
      (fun i => decide (i.getD 0 0 ≥ i.getD 1 0)) = true) := by
    simp only [List.any_cons, List.any_nil, Bool.or_false, Bool.or_eq_true,
      decide_eq_true_eq, List.getD_cons_zero, List.getD_cons_succ]
    norm_num
  have hmk : mkSearchSpace [[(0:ℚ), 1], [0, 1]] (fun _ => true)
      (fun _ _ _ => true) = Except.ok demoSpace := by
    rw [mkSearchSpace, if_neg (by norm_num), if_neg hm, if_neg hdeg]
    rfl
  have hunit : ∀ q ∈ ([1/2, 1/2] : List ℚ), 0 ≤ q ∧ q < 1 := by
    intro q hq
    rcases List.mem_cons.mp hq with rfl | hq
    · norm_num
    · rcases List.mem_cons.mp hq with rfl | hq
      · norm_num
      · exact absurd hq (List.not_mem_nil q)
  exact ⟨hmk, (sample_mem_bounds _ _ _ _ _ hmk rfl hunit).2 0 (by norm_num [demoSpace])⟩

/-- Points of `obsDemo`'s one-dimensional space strictly outside the
obstacle interval `[9/20, 11/20]` are obstacle-free. -/
lemma obsDemo_obstacle_free_outside (x : ℚ) (hx : x < 9/20 ∨ 11/20 < x) :
    obsDemo.obstacle_free [x] = true := by
  have hcont : containsPoint obsDemo.dim [9/20, 11/20] [x] = false := by
    rw [containsPoint, List.all_eq_false]
    refine ⟨0, by simp [obsDemo], ?_⟩
    simp only [decide_eq_true_eq]
    simp only [obsDemo, List.getD_cons_zero, List.getD_cons_succ, zero_add]
    rcases hx with hx | hx
    · exact fun hc => absurd hc.1 (not_le.mpr hx)
    · exact fun hc => absurd hc.2 (not_le.mpr hx)
  have hcount : obsDemo.count [x] = 0 := by
    rw [ObstacleRtree.count]
    show List.countP (fun o => containsPoint obsDemo.dim o [x]) [[9/20, 11/20]] = 0
    rw [List.countP_cons, List.countP_nil]
    simp [hcont]
  rw [ObstacleRtree.obstacle_free, hcount]
  rfl

/-- The segment from 0 to 1 in one dimension, discretized at resolution
1/2, is sampled at 0, 1/2 and 1. -/
lemma es_points_unit_half :
    es_points_along_line [0] [1] (1/2) = [[0], [1/2], [1]] := by
  have hd : chebDist [0] [1] = 1 := by
    norm_num [chebDist]
  have hn : segmentSteps [0] [1] (1/2) = 2 := by
    rw [segmentSteps, hd]
    rw [show (1:ℚ)/(1/2) = ((2:ℤ):ℚ) by norm_num, Int.ceil_intCast]
    rfl
  rw [es_points_along_line, hn]
  norm_num [List.range_succ]

/-- The same segment at resolution 2/5 is sampled at 0, 1/3, 2/3 and 1. -/
lemma es_points_unit_two_fifths :
    es_points_along_line [0] [1] (2/5) = [[0], [1/3], [2/3], [1]] := by
  have hd : chebDist [0] [1] = 1 := by
    norm_num [chebDist]
  have hn : segmentSteps [0] [1] (2/5) = 3 := by
    rw [segmentSteps, hd]
    rw [show ⌈(1:ℚ)/(2/5)⌉ = 3 by rw [Int.ceil_eq_iff]; norm_num]
    rfl
  rw [es_points_along_line, hn]
  norm_num [List.range_succ]

/-- C8 counterexample: with the single obstacle `[9/20, 11/20]` and the
segment from `[0]` to `[1]`, the coarse resolution 1/2 places a sample
point at `[1/2]` inside the obstacle, so `collision_free` is false,
while the strictly finer resolution 2/5 samples at 0, 1/3, 2/3, 1,
misses the obstacle, and returns true: decreasing the resolution turned
false into true. -/
theorem collision_free_not_monotone_in_resolution :
    (2:ℚ)/5 < 1/2 ∧ (0:ℚ) < 2/5 ∧
      obsDemo.collision_free [0] [1] (1/2) = false ∧
      obsDemo.collision_free [0] [1] (2/5) = true := by
  refine ⟨by norm_num, by norm_num, ?_, ?_⟩
  · rw [ObstacleRtree.collision_free, es_points_unit_half, List.all_eq_false]
    refine ⟨[1/2], by simp, ?_⟩
    show ¬(obsDemo.obstacle_free [1/2] = true)
    rw [obsDemo_obstacle_free_half]
    exact Bool.false_ne_true
  · rw [ObstacleRtree.collision_free, es_points_unit_two_fifths, List.all_eq_true]
    intro p hp
    rcases List.mem_cons.mp hp with rfl | hp
    · exact obsDemo_obstacle_free_outside 0 (by norm_num)
    rcases List.mem_cons.mp hp with rfl | hp
    · exact obsDemo_obstacle_free_outside (1/3) (by norm_num)
    rcases List.mem_cons.mp hp with rfl | hp
    · exact obsDemo_obstacle_free_outside (2/3) (by norm_num)
    rcases List.mem_cons.mp hp with rfl | hp
    · exact obsDemo_obstacle_free_outside 1 (by norm_num)
    exact absurd hp (List.not_mem_nil p)

/-- C8 amended: decreasing the resolution preserves a false
`collision_free` verdict when the finer sampling retains every sample
point of the coarser one; in general (see the counterexample) denser
sampling may miss an obstacle hit found at the coarser resolution. -/
theorem collision_free_mono_of_subset (R : ObstacleRtree) (a b : Point)
    (r1 r2 : ℚ) (_h21 : r2 < r1) (_h2 : 0 < r2)
    (hsub : ∀ p ∈ es_points_along_line a b r1, p ∈ es_points_along_line a b r2)
    (hf : R.collision_free a b r1 = false) :
    R.collision_free a b r2 = false := by
  rw [ObstacleRtree.collision_free, List.all_eq_false] at hf ⊢
  obtain ⟨p, hp, hfp⟩ := hf
  exact ⟨p, hsub p hp, hfp⟩

theorem collision_free_mono_of_subset_witness :
    (1:ℚ)/2 < 1 ∧ (0:ℚ) < 1/2 ∧
      obsDemo.collision_free [1/2] [1/2] (1/2) = false := by
  have hf1 : obsDemo.collision_free [1/2] [1/2] 1 = false := by
    rw [collision_free_self_aux, obsDemo_obstacle_free_half]
  refine ⟨by norm_num, by norm_num,
    collision_free_mono_of_subset obsDemo [1/2] [1/2] 1 (1/2)
      (by norm_num) (by norm_num) ?_ hf1⟩
  intro p hp
  rw [es_points_along_line_self] at hp ⊢
  rw [List.mem_replicate] at hp ⊢
  exact ⟨Nat.succ_ne_zero _, hp.2⟩

end RRT
